import Mathlib

/-!
Verification of the contiguous physical frame allocator `ContFramePool`
(`cont_frame_pool.C`): a shallow embedding of the frame-state bitmap, the
pool registry, and the allocator operations, followed by theorems about the
claims of the specification.

Modelling conventions:
* A bitmap (`unsigned char *` in the source) is a function `Nat → Nat` from
  byte index to byte value; reads and writes only ever touch the low 8 bits
  of a byte, exactly as the masked two-bit updates in the source do.
* A pool is a record of the three constructor inputs plus its bitmap.
* The global registry (the intrusive doubly linked list threaded through
  `head`/`next`/`prev`) is a `List ContFramePool` ordered from `head`.
* The two `while` loops of the source (`get_frames`' scan and
  `release_frames`' run walk) are written with an explicit fuel argument
  that is chosen large enough that the fuel never runs out while the C
  loop's guard still holds, so the fuelled function agrees with the loop.
* Machine integers are modelled as `Nat`; in `needed_info_frames`, where
  the 32-bit `unsigned int` arithmetic can wrap for large inputs, the
  truncation is modelled explicitly with `% 4294967296`.
-/

/-- The three per-frame states of `ContFramePool::FrameState`. -/
inductive FrameState where
  | Free
  | Used
  | HoS
deriving DecidableEq, Repr

/-- The constant `FRAME_SIZE` from the headers: 4096 bytes per frame. -/
def FRAME_SIZE : Nat := 4096

/-- Decoding of a two-bit bitmap entry, following the `switch` in
`ContFramePool::get_state`: `0 ↦ Free`, `1 ↦ Used`, `2 ↦ HoS`, and the
reserved pattern `3` falls through to the trailing `return FrameState::Free`. -/
def decodeState : Nat → FrameState
  | 0 => FrameState.Free
  | 1 => FrameState.Used
  | 2 => FrameState.HoS
  | _ => FrameState.Free

/-- The numeric encoding written by `ContFramePool::set_state`
(`Free = 0b00`, `Used = 0b01`, `HoS = 0b10`). -/
def stateBits : FrameState → Nat
  | FrameState.Free => 0
  | FrameState.Used => 1
  | FrameState.HoS => 2

/-- Source `ContFramePool::get_state`: extract the two-bit field of frame
`fno` at bit offset `2 * (fno % 4)` of byte `fno / 4`. -/
def get_state (bitmap : Nat → Nat) (fno : Nat) : FrameState :=
  decodeState ((bitmap (fno / 4) >>> (2 * (fno % 4))) &&& 3)

/-- Source `ContFramePool::set_state`: clear the two-bit field with the mask
`~(0x3 << shift)` (truncated to the byte, i.e. `255 ^^^ (3 <<< shift)`)
and then OR in the encoding of the new state. -/
def set_state (bitmap : Nat → Nat) (fno : Nat) (s : FrameState) : Nat → Nat :=
  let bitmap_index := fno / 4
  let shift := 2 * (fno % 4)
  let cleared := bitmap bitmap_index &&& (255 ^^^ (3 <<< shift))
  let updated :=
    match s with
    | FrameState.Free => cleared
    | FrameState.Used => cleared ||| (1 <<< shift)
    | FrameState.HoS => cleared ||| (2 <<< shift)
  fun i => if i = bitmap_index then updated else bitmap i

/-- One frame pool: the three constructor inputs together with its bitmap. -/
structure ContFramePool where
  base_frame_no : Nat
  nframes : Nat
  info_frame_no : Nat
  bitmap : Nat → Nat

/-- An ascending `for` loop writing state `s` into `count` consecutive
bitmap entries starting at `pos` (the loop bodies of the constructor and of
`mark_inaccessible`). -/
def setRun (s : FrameState) : (Nat → Nat) → Nat → Nat → (Nat → Nat)
  | bm, _, 0 => bm
  | bm, pos, count + 1 => setRun s (set_state bm pos s) (pos + 1) count

/-- Source `ContFramePool::mark_inaccessible(_base_frame_no, _n_frames)`: set the
first frame to `HoS`, then frames `_base_frame_no + 1 .. _base_frame_no +
_n_frames - 1` to `Used`. -/
def mark_inaccessible (p : ContFramePool) (base n : Nat) : ContFramePool :=
  { p with bitmap := setRun FrameState.Used (set_state p.bitmap base FrameState.HoS) (base + 1) (n - 1) }

/-- The per-pool effect of the constructor `ContFramePool::ContFramePool`:
record the inputs, mark all `n` entries `Free`, and, when
`info_frame_no == 0`, self-reserve frame 0 as `HoS`.  `junk` is the
arbitrary prior content of the info frame's memory. -/
def constructPool (junk : Nat → Nat) (base n info : Nat) : ContFramePool :=
  let bm0 := setRun FrameState.Free junk 0 n
  { base_frame_no := base, nframes := n, info_frame_no := info,
    bitmap := if info = 0 then set_state bm0 0 FrameState.HoS else bm0 }

/-- The registry insertion performed by the constructor: walk from `head`
past all pools with a strictly smaller `base_frame_no` and link the new
pool in before the first pool whose base is not smaller (or at the end). -/
def insertPool (p : ContFramePool) : List ContFramePool → List ContFramePool
  | [] => [p]
  | q :: rest =>
    if q.base_frame_no < p.base_frame_no then q :: insertPool p rest
    else p :: q :: rest

/-- A full constructor call: build the pool and insert it into the registry. -/
def construct (ps : List ContFramePool) (junk : Nat → Nat) (base n info : Nat) :
    List ContFramePool :=
  insertPool (constructPool junk base n info) ps

/-- The inner scan of `ContFramePool::get_frames`: starting at offset 0,
return the first offset `i < count` whose frame `start + i` is not `Free`
(the offset at which the C loop sets `found = false` and breaks), or `none`
when all `count` frames are `Free`. -/
def firstNonFree (bm : Nat → Nat) (start : Nat) : Nat → Option Nat
  | 0 => none
  | count + 1 =>
    if get_state bm start = FrameState.Free then
      (firstNonFree bm (start + 1) count).map (· + 1)
    else some 0

/-- The outer `while` loop of `ContFramePool::get_frames`, with fuel.
While `start_frame + n - 1 < nframes`: scan the window; on a non-`Free`
frame at offset `i` restart at `start_frame + i + 1`; on success mark the
window and return `start_frame + base_frame_no`.  Otherwise return 0. -/
def get_frames_loop (p : ContFramePool) (n : Nat) : Nat → Nat → ContFramePool × Nat
  | 0, _ => (p, 0)
  | fuel + 1, start_frame =>
    if start_frame + n - 1 < p.nframes then
      match firstNonFree p.bitmap start_frame n with
      | none => (mark_inaccessible p start_frame n, start_frame + p.base_frame_no)
      | some i => get_frames_loop p n fuel (start_frame + i + 1)
    else (p, 0)

/-- Source `ContFramePool::get_frames(_n_frames)`.  The result is the updated pool
together with the returned absolute frame number (0 on failure).  The fuel
`nframes + 1` exceeds the number of iterations the loop can make, since
`start_frame` strictly increases and stays below `nframes` while the guard
holds. -/
def get_frames (p : ContFramePool) (n : Nat) : ContFramePool × Nat :=
  get_frames_loop p n (p.nframes + 1) 0

/-- The run-freeing `while` loop of `ContFramePool::release_frames`, with
fuel: while `fno < nf` and the frame is `Used`, set it `Free` and advance. -/
def freeRun (nf : Nat) : (Nat → Nat) → Nat → Nat → (Nat → Nat)
  | bm, _, 0 => bm
  | bm, fno, fuel + 1 =>
    if fno < nf ∧ get_state bm fno = FrameState.Used then
      freeRun nf (set_state bm fno FrameState.Free) (fno + 1) fuel
    else bm

/-- The per-pool body of `ContFramePool::release_frames` once the owning
pool has been located: if the relative frame is `HoS`, free it and then
free the following run of `Used` frames; otherwise only a diagnostic is
printed and the bitmap is left unchanged.  The fuel `nframes - (rel + 1)`
bounds the iterations of the walk, whose index starts at `rel + 1` and
stays below `nframes`. -/
def release_in_pool (p : ContFramePool) (rel : Nat) : ContFramePool :=
  if get_state p.bitmap rel = FrameState.HoS then
    let bm := freeRun p.nframes (set_state p.bitmap rel FrameState.Free) (rel + 1) (p.nframes - (rel + 1))
    { p with bitmap := bm }
  else p

/-- The static `ContFramePool::release_frames(_first_frame_no)`: walk the
registry while the pool's `base_frame_no ≤ _first_frame_no`; on the first
pool with `_first_frame_no ≤ base_frame_no + nframes - 1`, release the
relative frame there and stop; if a pool with a larger base is reached (or
the list ends), stop without touching anything. -/
def release_frames : List ContFramePool → Nat → List ContFramePool
  | [], _ => []
  | p :: rest, f =>
    if p.base_frame_no ≤ f then
      if f ≤ p.base_frame_no + p.nframes - 1 then
        release_in_pool p (f - p.base_frame_no) :: rest
      else p :: release_frames rest f
    else p :: rest

/-- Source `ContFramePool::needed_info_frames(_n_frames)`.  `bits_required` is an
`unsigned int`, so the products and sums are 32-bit and wrap; the model
keeps the `% 4294967296` truncations explicit (`x - 1` on a 32-bit
unsigned value is `(x + 4294967295) % 4294967296`). -/
def needed_info_frames (n : Nat) : Nat :=
  let bits_required := n * 2 % 4294967296
  ((bits_required + FRAME_SIZE * 8) % 4294967296 + 4294967295) % 4294967296 / (FRAME_SIZE * 8)

/-- Registry sortedness: the list from `head` is ascending by `base_frame_no`. -/
def sortedByBase (ps : List ContFramePool) : Prop :=
  ps.Pairwise (fun a b => a.base_frame_no ≤ b.base_frame_no)

/-- Disjointness of the frame ranges of two pools. -/
def rangesDisjoint (a b : ContFramePool) : Prop :=
  a.base_frame_no + a.nframes ≤ b.base_frame_no ∨
  b.base_frame_no + b.nframes ≤ a.base_frame_no

instance (a b : ContFramePool) : Decidable (rangesDisjoint a b) := by
  unfold rangesDisjoint; infer_instance

/-- All frame ranges in the registry are pairwise disjoint. -/
def disjointRegistry (ps : List ContFramePool) : Prop :=
  ps.Pairwise rangesDisjoint

instance (ps : List ContFramePool) : Decidable (sortedByBase ps) := by
  unfold sortedByBase; exact List.instDecidablePairwise ps

/-- The arguments of one constructor call (`junk` is the arbitrary prior
content of the memory that will hold the bitmap). -/
structure CtorCall where
  junk : Nat → Nat
  base : Nat
  n : Nat
  info : Nat

/-- The registry produced by a sequence of constructor calls, starting from
the empty registry (`head = nullptr`). -/
def buildRegistry (calls : List CtorCall) : List ContFramePool :=
  calls.foldl (fun ps c => construct ps c.junk c.base c.n c.info) []

/-- The operations a client can perform on one pool after construction. -/
inductive PoolOp where
  | get (n : Nat)
  | mark (b n : Nat)
  | release (f : Nat)

/-- The effect of one operation on one pool.  For `release`, the static
`ContFramePool::release_frames` modifies this pool exactly when the pool
is the registry pool located for `f`, i.e. when `f` lies in the pool's
frame range (see `release_frames`); otherwise this pool is untouched. -/
def applyOp (p : ContFramePool) : PoolOp → ContFramePool
  | PoolOp.get n => (get_frames p n).1
  | PoolOp.mark b n => mark_inaccessible p b n
  | PoolOp.release f =>
    if p.base_frame_no ≤ f ∧ f ≤ p.base_frame_no + p.nframes - 1 then
      release_in_pool p (f - p.base_frame_no)
    else p

/-- Well-formedness of a client operation for a pool based at `base`:
`get_frames` takes a request `n ≥ 1`, and the release never targets the
pool's own base frame. -/
def OpOK (base : Nat) : PoolOp → Prop
  | PoolOp.get n => 1 ≤ n
  | PoolOp.mark _ _ => True
  | PoolOp.release f => f ≠ base

instance (base : Nat) : DecidablePred (OpOK base) := fun op =>
  match op with
  | PoolOp.get n => inferInstanceAs (Decidable (1 ≤ n))
  | PoolOp.mark _ _ => inferInstanceAs (Decidable True)
  | PoolOp.release f => inferInstanceAs (Decidable (f ≠ base))

/-! ## Bit-level lemmas for the packed bitmap -/

lemma testBit_mod256 (b i : Nat) (hi : i < 8) : (b % 256).testBit i = b.testBit i := by
  have h256 : (256 : Nat) = 2 ^ 8 := by norm_num
  rw [h256, Nat.testBit_mod_two_pow]
  simp [hi]

lemma and_mod256 (b m : Nat) (hm : m < 256) : b &&& m = b % 256 &&& m := by
  apply Nat.eq_of_testBit_eq
  intro i
  rcases lt_or_ge i 8 with hi | hi
  · simp [Nat.testBit_land, testBit_mod256 b i hi]
  · have hmi : m.testBit i = false := by
      apply Nat.testBit_lt_two_pow
      calc m < 256 := hm
        _ = 2 ^ 8 := by norm_num
        _ ≤ 2 ^ i := Nat.pow_le_pow_right (by norm_num) hi
    simp [Nat.testBit_land, hmi]

lemma shift3_mod256 (b s : Nat) (hs : s ≤ 6) :
    ((b % 256) >>> s) &&& 3 = (b >>> s) &&& 3 := by
  apply Nat.eq_of_testBit_eq
  intro i
  rcases lt_or_ge i 2 with hi | hi
  · have hsi : s + i < 8 := by omega
    simp [Nat.testBit_land, Nat.testBit_shiftRight, testBit_mod256 b (s + i) hsi]
  · have h3 : (3 : Nat).testBit i = false := by
      apply Nat.testBit_lt_two_pow
      calc (3 : Nat) < 2 ^ 2 := by norm_num
        _ ≤ 2 ^ i := Nat.pow_le_pow_right (by norm_num) hi
    simp [Nat.testBit_land, h3]

lemma mask_lt (a : Nat) (ha : a < 4) : 255 ^^^ (3 <<< (2 * a)) < 256 := by
  interval_cases a <;> decide

set_option maxHeartbeats 1000000 in
set_option maxRecDepth 16384 in
lemma bits_same : ∀ b < 256, ∀ a < 4, ∀ e < 4,
    (((b &&& (255 ^^^ (3 <<< (2 * a)))) ||| (e <<< (2 * a))) >>> (2 * a)) &&& 3 = e := by
  decide

set_option maxHeartbeats 4000000 in
set_option maxRecDepth 16384 in
lemma bits_other : ∀ b < 256, ∀ a < 4, ∀ c < 4, a ≠ c → ∀ e < 4,
    (((b &&& (255 ^^^ (3 <<< (2 * a)))) ||| (e <<< (2 * a))) >>> (2 * c)) &&& 3 =
      (b >>> (2 * c)) &&& 3 := by
  decide

lemma stateBits_lt (s : FrameState) : stateBits s < 4 := by
  cases s <;> decide

lemma decode_stateBits (s : FrameState) : decodeState (stateBits s) = s := by
  cases s <;> rfl

lemma set_state_apply_eq (bm : Nat → Nat) (k : Nat) (s : FrameState) :
    set_state bm k s (k / 4) =
      (bm (k / 4) &&& (255 ^^^ (3 <<< (2 * (k % 4))))) ||| (stateBits s <<< (2 * (k % 4))) := by
  cases s <;> simp [set_state, stateBits, Nat.zero_shiftLeft, Nat.or_zero]

lemma set_state_apply_ne (bm : Nat → Nat) (k : Nat) (s : FrameState) (i : Nat)
    (h : i ≠ k / 4) : set_state bm k s i = bm i := by
  simp [set_state, h]

lemma get_set_same (bm : Nat → Nat) (k : Nat) (s : FrameState) :
    get_state (set_state bm k s) k = s := by
  have ha : k % 4 < 4 := Nat.mod_lt _ (by norm_num)
  have hb : bm (k / 4) % 256 < 256 := Nat.mod_lt _ (by norm_num)
  show decodeState ((set_state bm k s (k / 4) >>> (2 * (k % 4))) &&& 3) = s
  rw [set_state_apply_eq, and_mod256 _ _ (mask_lt _ ha),
    bits_same _ hb _ ha _ (stateBits_lt s), decode_stateBits]

lemma get_set_other (bm : Nat → Nat) (k : Nat) (s : FrameState) (j : Nat)
    (hjk : j ≠ k) : get_state (set_state bm k s) j = get_state bm j := by
  by_cases hbyte : j / 4 = k / 4
  · have ha : k % 4 < 4 := Nat.mod_lt _ (by norm_num)
    have hc : j % 4 < 4 := Nat.mod_lt _ (by norm_num)
    have hb : bm (k / 4) % 256 < 256 := Nat.mod_lt _ (by norm_num)
    have hac : k % 4 ≠ j % 4 := by omega
    show decodeState ((set_state bm k s (j / 4) >>> (2 * (j % 4))) &&& 3) =
      decodeState ((bm (j / 4) >>> (2 * (j % 4))) &&& 3)
    rw [hbyte, set_state_apply_eq, and_mod256 _ _ (mask_lt _ ha),
      bits_other _ hb _ ha _ hc hac _ (stateBits_lt s),
      shift3_mod256 _ _ (by omega)]
  · show decodeState ((set_state bm k s (j / 4) >>> (2 * (j % 4))) &&& 3) =
      decodeState ((bm (j / 4) >>> (2 * (j % 4))) &&& 3)
    rw [set_state_apply_ne _ _ _ _ hbyte]

/-! ## Characterizations of the write loops -/

lemma setRun_get (s : FrameState) :
    ∀ (count : Nat) (bm : Nat → Nat) (pos j : Nat),
      (pos ≤ j → j < pos + count → get_state (setRun s bm pos count) j = s) ∧
      (¬(pos ≤ j ∧ j < pos + count) → get_state (setRun s bm pos count) j = get_state bm j) := by
  intro count
  induction count with
  | zero =>
    intro bm pos j
    refine ⟨fun h1 h2 => absurd h2 (by omega), fun _ => rfl⟩
  | succ k ih =>
    intro bm pos j
    have hrw : setRun s bm pos (k + 1) = setRun s (set_state bm pos s) (pos + 1) k := rfl
    constructor
    · intro h1 h2
      rw [hrw]
      by_cases hj : j = pos
      · rw [(ih (set_state bm pos s) (pos + 1) j).2 (by omega), hj]
        exact get_set_same bm pos s
      · exact (ih (set_state bm pos s) (pos + 1) j).1 (by omega) (by omega)
    · intro h
      rw [hrw, (ih (set_state bm pos s) (pos + 1) j).2 (by omega)]
      exact get_set_other bm pos s j (by omega)

lemma mark_get_head (p : ContFramePool) (base n : Nat) :
    get_state (mark_inaccessible p base n).bitmap base = FrameState.HoS := by
  show get_state (setRun FrameState.Used (set_state p.bitmap base FrameState.HoS) (base + 1) (n - 1)) base = _
  rw [(setRun_get FrameState.Used (n - 1) (set_state p.bitmap base FrameState.HoS) (base + 1) base).2 (by omega)]
  exact get_set_same p.bitmap base FrameState.HoS

lemma mark_get_used (p : ContFramePool) (base n j : Nat) (h1 : base < j) (h2 : j < base + n) :
    get_state (mark_inaccessible p base n).bitmap j = FrameState.Used := by
  exact (setRun_get FrameState.Used (n - 1) (set_state p.bitmap base FrameState.HoS) (base + 1) j).1
    (by omega) (by omega)

lemma mark_get_out (p : ContFramePool) (base n j : Nat) (hj : j ≠ base)
    (h : ¬(base < j ∧ j < base + n)) :
    get_state (mark_inaccessible p base n).bitmap j = get_state p.bitmap j := by
  have := (setRun_get FrameState.Used (n - 1) (set_state p.bitmap base FrameState.HoS) (base + 1) j).2
    (by omega)
  rw [show (mark_inaccessible p base n).bitmap = setRun FrameState.Used (set_state p.bitmap base FrameState.HoS) (base + 1) (n - 1) from rfl,
    this]
  exact get_set_other p.bitmap base FrameState.HoS j hj

lemma mark_fields (p : ContFramePool) (base n : Nat) :
    (mark_inaccessible p base n).base_frame_no = p.base_frame_no ∧
    (mark_inaccessible p base n).nframes = p.nframes ∧
    (mark_inaccessible p base n).info_frame_no = p.info_frame_no :=
  ⟨rfl, rfl, rfl⟩

lemma constructPool_fields (junk : Nat → Nat) (base n info : Nat) :
    (constructPool junk base n info).base_frame_no = base ∧
    (constructPool junk base n info).nframes = n ∧
    (constructPool junk base n info).info_frame_no = info :=
  ⟨rfl, rfl, rfl⟩

lemma constructPool_state_zero (junk : Nat → Nat) (base n : Nat) :
    get_state (constructPool junk base n 0).bitmap 0 = FrameState.HoS := by
  show get_state (set_state (setRun FrameState.Free junk 0 n) 0 FrameState.HoS) 0 = _
  exact get_set_same _ 0 FrameState.HoS

lemma constructPool_state_free (junk : Nat → Nat) (base n info k : Nat) (hk : k < n)
    (h : ¬(info = 0 ∧ k = 0)) :
    get_state (constructPool junk base n info).bitmap k = FrameState.Free := by
  have hfree : get_state (setRun FrameState.Free junk 0 n) k = FrameState.Free :=
    (setRun_get FrameState.Free n junk 0 k).1 (by omega) (by omega)
  by_cases hinfo : info = 0
  · have hknz : k ≠ 0 := fun hk0 => h ⟨hinfo, hk0⟩
    show get_state (if info = 0 then set_state (setRun FrameState.Free junk 0 n) 0 FrameState.HoS
      else setRun FrameState.Free junk 0 n) k = FrameState.Free
    rw [if_pos hinfo, get_set_other _ 0 FrameState.HoS k hknz]
    exact hfree
  · show get_state (if info = 0 then set_state (setRun FrameState.Free junk 0 n) 0 FrameState.HoS
      else setRun FrameState.Free junk 0 n) k = FrameState.Free
    rw [if_neg hinfo]
    exact hfree

/-! ## Characterization of the scan in `get_frames` -/

lemma firstNonFree_none (bm : Nat → Nat) :
    ∀ (n start : Nat), firstNonFree bm start n = none ↔
      ∀ i, i < n → get_state bm (start + i) = FrameState.Free := by
  intro n
  induction n with
  | zero => intro start; simp [firstNonFree]
  | succ k ih =>
    intro start
    by_cases hfree : get_state bm start = FrameState.Free
    · rw [show firstNonFree bm start (k + 1) =
        (firstNonFree bm (start + 1) k).map (· + 1) from by simp [firstNonFree, hfree]]
      constructor
      · intro hmap i hi
        rcases Nat.eq_zero_or_pos i with hi0 | hipos
        · subst hi0; simpa using hfree
        · have hnone : firstNonFree bm (start + 1) k = none := by
            cases hcase : firstNonFree bm (start + 1) k with
            | none => rfl
            | some v => rw [hcase] at hmap; simp at hmap
          have := (ih (start + 1)).1 hnone (i - 1) (by omega)
          rw [show start + 1 + (i - 1) = start + i from by omega] at this
          exact this
      · intro hall
        have : firstNonFree bm (start + 1) k = none := by
          apply (ih (start + 1)).2
          intro i hi
          have := hall (i + 1) (by omega)
          rw [show start + (i + 1) = start + 1 + i from by omega] at this
          exact this
        rw [this]; rfl
    · rw [show firstNonFree bm start (k + 1) = some 0 from by simp [firstNonFree, hfree]]
      constructor
      · intro h; simp at h
      · intro hall
        exact absurd (by simpa using hall 0 (by omega)) hfree

lemma firstNonFree_some (bm : Nat → Nat) :
    ∀ (n start i : Nat), firstNonFree bm start n = some i →
      i < n ∧ get_state bm (start + i) ≠ FrameState.Free ∧
        ∀ j, j < i → get_state bm (start + j) = FrameState.Free := by
  intro n
  induction n with
  | zero => intro start i h; simp [firstNonFree] at h
  | succ k ih =>
    intro start i h
    by_cases hfree : get_state bm start = FrameState.Free
    · rw [show firstNonFree bm start (k + 1) =
        (firstNonFree bm (start + 1) k).map (· + 1) from by simp [firstNonFree, hfree]] at h
      cases hcase : firstNonFree bm (start + 1) k with
      | none => rw [hcase] at h; simp at h
      | some v =>
        rw [hcase] at h
        simp at h
        obtain ⟨hv, hnf, hprev⟩ := ih (start + 1) v hcase
        subst h
        refine ⟨by omega, ?_, ?_⟩
        · rw [show start + (v + 1) = start + 1 + v from by omega]
          exact hnf
        · intro j hj
          rcases Nat.eq_zero_or_pos j with hj0 | hjpos
          · subst hj0; simpa using hfree
          · have := hprev (j - 1) (by omega)
            rw [show start + 1 + (j - 1) = start + j from by omega] at this
            exact this
    · rw [show firstNonFree bm start (k + 1) = some 0 from by simp [firstNonFree, hfree]] at h
      simp at h
      subst h
      exact ⟨by omega, by simpa using hfree, fun j hj => absurd hj (by omega)⟩

/-! ## The first-fit scan of `get_frames` -/

lemma gf_loop_found (p : ContFramePool) (n : Nat) (hn : 1 ≤ n) :
    ∀ (fuel start s : Nat), p.nframes < fuel + start → start ≤ s → s + n ≤ p.nframes →
      (∀ i, i < n → get_state p.bitmap (s + i) = FrameState.Free) →
      (∀ t, start ≤ t → t < s → ¬ ∀ i, i < n → get_state p.bitmap (t + i) = FrameState.Free) →
      get_frames_loop p n fuel start = (mark_inaccessible p s n, s + p.base_frame_no) := by
  intro fuel
  induction fuel with
  | zero =>
    intro start s hfuel hstart hbound _ _
    omega
  | succ k ih =>
    intro start s hfuel hstart hbound hfree hleast
    have hguard : start + n - 1 < p.nframes := by omega
    show (if start + n - 1 < p.nframes then _ else _) = _
    rw [if_pos hguard]
    cases hscan : firstNonFree p.bitmap start n with
    | none =>
      have hall := (firstNonFree_none p.bitmap n start).1 hscan
      have hse : start = s := by
        by_contra hne
        exact hleast start (le_refl start) (by omega) hall
      simp only [hse]
    | some i =>
      obtain ⟨hin, hnf, _⟩ := firstNonFree_some p.bitmap n start i hscan
      have hnext : start + i + 1 ≤ s := by
        by_contra hgt
        have hoff : start + i = s + (start + i - s) := by omega
        have := hfree (start + i - s) (by omega)
        rw [← hoff] at this
        exact hnf this
      exact ih (start + i + 1) s (by omega) hnext hbound hfree
        (fun t ht1 ht2 => hleast t (by omega) ht2)

lemma gf_loop_none (p : ContFramePool) (n : Nat) (hn : 1 ≤ n) :
    ∀ (fuel start : Nat),
      (∀ s, start ≤ s → s + n ≤ p.nframes →
        ¬ ∀ i, i < n → get_state p.bitmap (s + i) = FrameState.Free) →
      get_frames_loop p n fuel start = (p, 0) := by
  intro fuel
  induction fuel with
  | zero => intro start _; rfl
  | succ k ih =>
    intro start hnone
    show (if start + n - 1 < p.nframes then _ else _) = _
    by_cases hguard : start + n - 1 < p.nframes
    · rw [if_pos hguard]
      cases hscan : firstNonFree p.bitmap start n with
      | none =>
        exact absurd ((firstNonFree_none p.bitmap n start).1 hscan)
          (hnone start (le_refl start) (by omega))
      | some i =>
        exact ih (start + i + 1) (fun s hs => hnone s (by omega))
    · rw [if_neg hguard]

lemma gf_loop_preserve (p : ContFramePool) (n : Nat) (hn : 1 ≤ n) (j : Nat)
    (hj : get_state p.bitmap j ≠ FrameState.Free) :
    ∀ (fuel start : Nat),
      get_state ((get_frames_loop p n fuel start).1).bitmap j = get_state p.bitmap j := by
  intro fuel
  induction fuel with
  | zero => intro start; rfl
  | succ k ih =>
    intro start
    show get_state ((if start + n - 1 < p.nframes then _ else _) : ContFramePool × Nat).1.bitmap j = _
    by_cases hguard : start + n - 1 < p.nframes
    · rw [if_pos hguard]
      cases hscan : firstNonFree p.bitmap start n with
      | none =>
        have hall := (firstNonFree_none p.bitmap n start).1 hscan
        have hjs : j ≠ start := by
          intro hj0
          apply hj
          have := hall 0 (by omega)
          rw [hj0]
          simpa using this
        have hjout : ¬(start < j ∧ j < start + n) := by
          rintro ⟨h1, h2⟩
          exact hj (by have := hall (j - start) (by omega); rw [show start + (j - start) = j from by omega] at this; exact this)
        exact mark_get_out p start n j hjs hjout
      | some i => exact ih (start + i + 1)
    · rw [if_neg hguard]

lemma gf_fields (p : ContFramePool) (n : Nat) :
    ∀ (fuel start : Nat),
      ((get_frames_loop p n fuel start).1).base_frame_no = p.base_frame_no ∧
      ((get_frames_loop p n fuel start).1).nframes = p.nframes ∧
      ((get_frames_loop p n fuel start).1).info_frame_no = p.info_frame_no := by
  intro fuel
  induction fuel with
  | zero => intro start; exact ⟨rfl, rfl, rfl⟩
  | succ k ih =>
    intro start
    have hunf : get_frames_loop p n (k + 1) start =
        if start + n - 1 < p.nframes then
          match firstNonFree p.bitmap start n with
          | none => (mark_inaccessible p start n, start + p.base_frame_no)
          | some i => get_frames_loop p n k (start + i + 1)
        else (p, 0) := rfl
    rw [hunf]
    by_cases hguard : start + n - 1 < p.nframes
    · rw [if_pos hguard]
      cases hscan : firstNonFree p.bitmap start n with
      | none => exact ⟨rfl, rfl, rfl⟩
      | some i => exact ih (start + i + 1)
    · rw [if_neg hguard]
      exact ⟨rfl, rfl, rfl⟩

/-! ## The run-freeing walk of `release_frames` -/

lemma freeRun_get (nf : Nat) :
    ∀ (fuel : Nat) (bm : Nat → Nat) (fno : Nat), nf ≤ fno + fuel →
      ∀ j, ((fno ≤ j ∧ j < nf ∧ ∀ t, fno ≤ t → t ≤ j → get_state bm t = FrameState.Used) →
              get_state (freeRun nf bm fno fuel) j = FrameState.Free) ∧
           (¬(fno ≤ j ∧ j < nf ∧ ∀ t, fno ≤ t → t ≤ j → get_state bm t = FrameState.Used) →
              get_state (freeRun nf bm fno fuel) j = get_state bm j) := by
  intro fuel
  induction fuel with
  | zero =>
    intro bm fno hfuel j
    exact ⟨fun h => absurd h (by push_neg; intro h1 h2; omega), fun _ => rfl⟩
  | succ k ih =>
    intro bm fno hfuel j
    have hunf : freeRun nf bm fno (k + 1) =
        if fno < nf ∧ get_state bm fno = FrameState.Used then
          freeRun nf (set_state bm fno FrameState.Free) (fno + 1) k
        else bm := rfl
    rw [hunf]
    by_cases hguard : fno < nf ∧ get_state bm fno = FrameState.Used
    · rw [if_pos hguard]
      set bm1 := set_state bm fno FrameState.Free with hbm1
      have hsame : ∀ t, fno + 1 ≤ t → get_state bm1 t = get_state bm t := by
        intro t ht
        exact get_set_other bm fno FrameState.Free t (by omega)
      have hcond : ∀ j1, fno + 1 ≤ j1 →
          ((fno + 1 ≤ j1 ∧ j1 < nf ∧ ∀ t, fno + 1 ≤ t → t ≤ j1 → get_state bm1 t = FrameState.Used) ↔
           (fno ≤ j1 ∧ j1 < nf ∧ ∀ t, fno ≤ t → t ≤ j1 → get_state bm t = FrameState.Used)) := by
        intro j1 hj1
        constructor
        · rintro ⟨h1, h2, h3⟩
          refine ⟨by omega, h2, fun t ht1 ht2 => ?_⟩
          rcases Nat.eq_or_lt_of_le ht1 with ht | ht
          · rw [← ht]; exact hguard.2
          · rw [← hsame t (by omega)]; exact h3 t (by omega) ht2
        · rintro ⟨h1, h2, h3⟩
          refine ⟨hj1, h2, fun t ht1 ht2 => ?_⟩
          rw [hsame t ht1]; exact h3 t (by omega) ht2
      constructor
      · rintro ⟨h1, h2, h3⟩
        by_cases hj : j = fno
        · rw [(ih bm1 (fno + 1) (by omega) j).2 (by omega), hj]
          exact get_set_same bm fno FrameState.Free
        · exact (ih bm1 (fno + 1) (by omega) j).1
            ((hcond j (by omega)).2 ⟨h1, h2, h3⟩)
      · intro hne
        by_cases hj : j = fno
        · refine absurd (show fno ≤ j ∧ j < nf ∧
              ∀ t, fno ≤ t → t ≤ j → get_state bm t = FrameState.Used from ?_) hne
          refine ⟨by omega, by rw [hj]; exact hguard.1, fun t ht1 ht2 => ?_⟩
          have htf : t = fno := by omega
          rw [htf]; exact hguard.2
        · by_cases hj2 : fno + 1 ≤ j
          · rw [(ih bm1 (fno + 1) (by omega) j).2 (fun hc => hne ((hcond j hj2).1 hc)),
              hsame j hj2]
          · rw [(ih bm1 (fno + 1) (by omega) j).2 (by omega)]
            exact get_set_other bm fno FrameState.Free j hj
    · rw [if_neg hguard]
      constructor
      · rintro ⟨h1, h2, h3⟩
        refine absurd (show fno < nf ∧ get_state bm fno = FrameState.Used from
          ⟨by omega, h3 fno (le_refl fno) h1⟩) hguard
      · intro _; rfl

instance (ps : List ContFramePool) : Decidable (disjointRegistry ps) := by
  unfold disjointRegistry; exact List.instDecidablePairwise ps

/-! ## Registry lemmas -/

lemma insertPool_mem (p : ContFramePool) :
    ∀ (l : List ContFramePool) (x : ContFramePool), x ∈ insertPool p l → x = p ∨ x ∈ l := by
  intro l
  induction l with
  | nil => intro x hx; simp [insertPool] at hx; exact Or.inl hx
  | cons q rest ih =>
    intro x hx
    by_cases hlt : q.base_frame_no < p.base_frame_no
    · rw [show insertPool p (q :: rest) = q :: insertPool p rest from by
        simp [insertPool, hlt]] at hx
      rcases List.mem_cons.mp hx with hx | hx
      · exact Or.inr (by simp [hx])
      · rcases ih x hx with hx | hx
        · exact Or.inl hx
        · exact Or.inr (by simp [hx])
    · rw [show insertPool p (q :: rest) = p :: q :: rest from by
        simp [insertPool, hlt]] at hx
      rcases List.mem_cons.mp hx with hx | hx
      · exact Or.inl hx
      · exact Or.inr hx

lemma insertPool_sorted (p : ContFramePool) :
    ∀ (l : List ContFramePool), sortedByBase l → sortedByBase (insertPool p l) := by
  intro l
  induction l with
  | nil =>
    intro _
    exact List.pairwise_singleton _ p
  | cons q rest ih =>
    intro h
    rcases List.pairwise_cons.mp h with ⟨hq, hrest⟩
    by_cases hlt : q.base_frame_no < p.base_frame_no
    · rw [show insertPool p (q :: rest) = q :: insertPool p rest from by
        simp [insertPool, hlt]]
      apply List.pairwise_cons.mpr
      refine ⟨fun x hx => ?_, ih hrest⟩
      rcases insertPool_mem p rest x hx with hx | hx
      · rw [hx]; omega
      · exact hq x hx
    · rw [show insertPool p (q :: rest) = p :: q :: rest from by
        simp [insertPool, hlt]]
      apply List.pairwise_cons.mpr
      refine ⟨fun x hx => ?_, h⟩
      rcases List.mem_cons.mp hx with hx | hx
      · rw [hx]; omega
      · have := hq x hx; omega

lemma foldl_construct_sorted :
    ∀ (calls : List CtorCall) (ps : List ContFramePool), sortedByBase ps →
      sortedByBase (calls.foldl (fun ps c => construct ps c.junk c.base c.n c.info) ps) := by
  intro calls
  induction calls with
  | nil => intro ps h; exact h
  | cons c rest ih =>
    intro ps h
    exact ih (construct ps c.junk c.base c.n c.info) (insertPool_sorted _ ps h)

lemma release_frames_at (f : Nat) :
    ∀ (l₁ : List ContFramePool) (p : ContFramePool) (l₂ : List ContFramePool),
      (∀ q ∈ l₁, q.base_frame_no ≤ f ∧ ¬(f ≤ q.base_frame_no + q.nframes - 1)) →
      p.base_frame_no ≤ f → f ≤ p.base_frame_no + p.nframes - 1 →
      release_frames (l₁ ++ p :: l₂) f = l₁ ++ release_in_pool p (f - p.base_frame_no) :: l₂ := by
  intro l₁
  induction l₁ with
  | nil =>
    intro p l₂ _ h1 h2
    show (if p.base_frame_no ≤ f then _ else _) = _
    rw [if_pos h1, if_pos h2]
    rfl
  | cons q rest ih =>
    intro p l₂ hq h1 h2
    obtain ⟨hqle, hqout⟩ := hq q (by simp)
    show (if q.base_frame_no ≤ f then _ else _) = _
    rw [if_pos hqle, if_neg hqout]
    exact congrArg (List.cons q) (ih p l₂ (fun r hr => hq r (by simp [hr])) h1 h2)

lemma release_frames_skip (f : Nat) :
    ∀ (ps : List ContFramePool),
      (∀ p ∈ ps, ¬(p.base_frame_no ≤ f ∧ f ≤ p.base_frame_no + p.nframes - 1)) →
      release_frames ps f = ps := by
  intro ps
  induction ps with
  | nil => intro _; rfl
  | cons p rest ih =>
    intro h
    show (if p.base_frame_no ≤ f then _ else _) = _
    by_cases h1 : p.base_frame_no ≤ f
    · rw [if_pos h1]
      have h2 : ¬ f ≤ p.base_frame_no + p.nframes - 1 := fun h2 => h p (by simp) ⟨h1, h2⟩
      rw [if_neg h2, ih (fun r hr => h r (by simp [hr]))]
    · rw [if_neg h1]

/-! ## Per-operation preservation lemmas -/

lemma release_in_pool_fields (p : ContFramePool) (rel : Nat) :
    (release_in_pool p rel).base_frame_no = p.base_frame_no ∧
    (release_in_pool p rel).nframes = p.nframes ∧
    (release_in_pool p rel).info_frame_no = p.info_frame_no := by
  unfold release_in_pool
  split
  · exact ⟨rfl, rfl, rfl⟩
  · exact ⟨rfl, rfl, rfl⟩

lemma applyOp_fields (p : ContFramePool) (op : PoolOp) :
    (applyOp p op).base_frame_no = p.base_frame_no ∧
    (applyOp p op).nframes = p.nframes := by
  cases op with
  | get n =>
    have := gf_fields p n (p.nframes + 1) 0
    exact ⟨this.1, this.2.1⟩
  | mark b n => exact ⟨rfl, rfl⟩
  | release f =>
    show (if p.base_frame_no ≤ f ∧ f ≤ p.base_frame_no + p.nframes - 1 then
        release_in_pool p (f - p.base_frame_no) else p).base_frame_no = p.base_frame_no ∧
      (if p.base_frame_no ≤ f ∧ f ≤ p.base_frame_no + p.nframes - 1 then
        release_in_pool p (f - p.base_frame_no) else p).nframes = p.nframes
    by_cases hc : p.base_frame_no ≤ f ∧ f ≤ p.base_frame_no + p.nframes - 1
    · rw [if_pos hc]
      exact ⟨(release_in_pool_fields p _).1, (release_in_pool_fields p _).2.1⟩
    · rw [if_neg hc]
      exact ⟨rfl, rfl⟩

lemma applyOp_HoS (base : Nat) (p : ContFramePool) (op : PoolOp)
    (hbase : p.base_frame_no = base)
    (hH : get_state p.bitmap 0 = FrameState.HoS) (hop : OpOK base op) :
    get_state (applyOp p op).bitmap 0 = FrameState.HoS := by
  cases op with
  | get n =>
    have hn : 1 ≤ n := hop
    have hnf : get_state p.bitmap 0 ≠ FrameState.Free := by rw [hH]; decide
    rw [show applyOp p (PoolOp.get n) = (get_frames_loop p n (p.nframes + 1) 0).1 from rfl,
      gf_loop_preserve p n hn 0 hnf (p.nframes + 1) 0]
    exact hH
  | mark b n =>
    by_cases hb : b = 0
    · rw [show applyOp p (PoolOp.mark b n) = mark_inaccessible p b n from rfl, hb]
      exact mark_get_head p 0 n
    · rw [show applyOp p (PoolOp.mark b n) = mark_inaccessible p b n from rfl,
        mark_get_out p b n 0 (fun h => hb h.symm) (by omega)]
      exact hH
  | release f =>
    have hf : f ≠ base := hop
    show get_state ((if p.base_frame_no ≤ f ∧ f ≤ p.base_frame_no + p.nframes - 1 then
      release_in_pool p (f - p.base_frame_no) else p)).bitmap 0 = _
    by_cases hc : p.base_frame_no ≤ f ∧ f ≤ p.base_frame_no + p.nframes - 1
    · rw [if_pos hc]
      have hrel : 1 ≤ f - p.base_frame_no := by omega
      unfold release_in_pool
      split
      · show get_state (freeRun p.nframes
          (set_state p.bitmap (f - p.base_frame_no) FrameState.Free)
          (f - p.base_frame_no + 1) (p.nframes - (f - p.base_frame_no + 1))) 0 = _
        rw [(freeRun_get p.nframes (p.nframes - (f - p.base_frame_no + 1))
          (set_state p.bitmap (f - p.base_frame_no) FrameState.Free)
          (f - p.base_frame_no + 1) (by omega) 0).2 (by omega),
          get_set_other p.bitmap (f - p.base_frame_no) FrameState.Free 0 (by omega)]
        exact hH
      · exact hH
    · rw [if_neg hc]
      exact hH

lemma foldl_applyOp_HoS (base : Nat) :
    ∀ (ops : List PoolOp) (p : ContFramePool), p.base_frame_no = base →
      get_state p.bitmap 0 = FrameState.HoS → (∀ op ∈ ops, OpOK base op) →
      get_state ((ops.foldl applyOp p)).bitmap 0 = FrameState.HoS := by
  intro ops
  induction ops with
  | nil => intro p _ hH _; exact hH
  | cons op rest ih =>
    intro p hbase hH hops
    exact ih (applyOp p op)
      (by rw [(applyOp_fields p op).1]; exact hbase)
      (applyOp_HoS base p op hbase hH (hops op (by simp)))
      (fun o ho => hops o (by simp [ho]))

/-! ## The claims -/

/-- C1.  `get_frames(n)` (for `n ≥ 1`) implements first-fit: when some
window of `n` consecutive `Free` frames fits in the pool, it returns
`base_frame_no` plus the lowest such relative start index `s`, after
marking the run via `mark_inaccessible` (frame `s` becomes
`HeadOfSequence`, the next `n - 1` frames `Used`); when no window of `n`
consecutive `Free` frames fits, it returns 0 and the pool (in particular
its bitmap) is unchanged. -/
theorem claim1_get_frames_first_fit (p : ContFramePool) (n : Nat) (hn : 1 ≤ n) :
    (∀ s, s + n ≤ p.nframes →
        (∀ i, i < n → get_state p.bitmap (s + i) = FrameState.Free) →
        (∀ t, t < s → ¬ ∀ i, i < n → get_state p.bitmap (t + i) = FrameState.Free) →
        get_frames p n = (mark_inaccessible p s n, s + p.base_frame_no)) ∧
    ((∀ s, s + n ≤ p.nframes → ¬ ∀ i, i < n → get_state p.bitmap (s + i) = FrameState.Free) →
        get_frames p n = (p, 0)) := by
  constructor
  · intro s hbound hfree hleast
    exact gf_loop_found p n hn (p.nframes + 1) 0 s (by omega) (Nat.zero_le s) hbound hfree
      (fun t _ ht2 => hleast t ht2)
  · intro hnone
    exact gf_loop_none p n hn (p.nframes + 1) 0 (fun s _ hs => hnone s hs)

/-- Witness for C1 at a concrete pool: 4 frames, frame 0 `Used` and the
rest `Free`; `get_frames 2` allocates at relative index 1 and returns
`1 + 10`. -/
theorem claim1_get_frames_first_fit_witness :
    get_frames (ContFramePool.mk 10 4 1 (fun _ => 1)) 2 =
      (mark_inaccessible (ContFramePool.mk 10 4 1 (fun _ => 1)) 1 2, 1 + 10) :=
  (claim1_get_frames_first_fit (ContFramePool.mk 10 4 1 (fun _ => 1)) 2 (by decide)).1 1
    (by decide) (by decide) (by decide)

/-- C2.  For a relative frame index `k < nframes`: if frame `k` is
`HeadOfSequence`, release frees `k` and exactly the following frames that
form an unbroken `Used` run (stopping at the first `Free` or
`HeadOfSequence` frame or at the end of the pool), leaving every other
frame's state unchanged; if frame `k` is not `HeadOfSequence`, only a
diagnostic is printed and the pool is unchanged. -/
theorem claim2_release_head_run (p : ContFramePool) (k : Nat) (hk : k < p.nframes) :
    (get_state p.bitmap k = FrameState.HoS →
      (∀ j, (j = k ∨ (k < j ∧ j < p.nframes ∧
          ∀ t, k < t → t ≤ j → get_state p.bitmap t = FrameState.Used)) →
        get_state (release_in_pool p k).bitmap j = FrameState.Free) ∧
      (∀ j, ¬(j = k ∨ (k < j ∧ j < p.nframes ∧
          ∀ t, k < t → t ≤ j → get_state p.bitmap t = FrameState.Used)) →
        get_state (release_in_pool p k).bitmap j = get_state p.bitmap j)) ∧
    (get_state p.bitmap k ≠ FrameState.HoS → release_in_pool p k = p) := by
  constructor
  · intro hH
    have hbm : (release_in_pool p k).bitmap =
        freeRun p.nframes (set_state p.bitmap k FrameState.Free) (k + 1)
          (p.nframes - (k + 1)) := by
      simp [release_in_pool, hH]
    have hFR := fun j => freeRun_get p.nframes (p.nframes - (k + 1))
      (set_state p.bitmap k FrameState.Free) (k + 1) (by omega) j
    have hcond : ∀ j, k < j →
        ((k + 1 ≤ j ∧ j < p.nframes ∧ ∀ t, k + 1 ≤ t → t ≤ j →
            get_state (set_state p.bitmap k FrameState.Free) t = FrameState.Used) ↔
         (k < j ∧ j < p.nframes ∧ ∀ t, k < t → t ≤ j →
            get_state p.bitmap t = FrameState.Used)) := by
      intro j hj
      constructor
      · rintro ⟨h1, h2, h3⟩
        refine ⟨hj, h2, fun t ht1 ht2 => ?_⟩
        rw [← get_set_other p.bitmap k FrameState.Free t (by omega)]
        exact h3 t (by omega) ht2
      · rintro ⟨h1, h2, h3⟩
        refine ⟨by omega, h2, fun t ht1 ht2 => ?_⟩
        rw [get_set_other p.bitmap k FrameState.Free t (by omega)]
        exact h3 t (by omega) ht2
    constructor
    · intro j hj
      rcases hj with hj | hj
      · rw [hbm, (hFR j).2 (by omega), hj]
        exact get_set_same p.bitmap k FrameState.Free
      · rw [hbm]
        exact (hFR j).1 ((hcond j hj.1).2 hj)
    · intro j hj
      have hjk : j ≠ k := fun h => hj (Or.inl h)
      rw [hbm]
      by_cases hgt : k < j
      · rw [(hFR j).2 (fun hc => hj (Or.inr ((hcond j hgt).1 hc)))]
        exact get_set_other p.bitmap k FrameState.Free j hjk
      · rw [(hFR j).2 (by omega)]
        exact get_set_other p.bitmap k FrameState.Free j hjk
  · intro hnH
    unfold release_in_pool
    rw [if_neg hnH]

/-- Witness for C2 at a concrete pool (states `[HoS, Used, Free, Free]`):
releasing head 0 frees frame 0. -/
theorem claim2_release_head_run_witness :
    get_state (release_in_pool (ContFramePool.mk 100 4 1 (fun _ => 6)) 0).bitmap 0 =
      FrameState.Free :=
  ((claim2_release_head_run (ContFramePool.mk 100 4 1 (fun _ => 6)) 0 (by decide)).1
    (by decide)).1 0 (Or.inl rfl)

/-- C10.  `set_state k s` followed by `get_state k` yields `s`, and the
state of every other frame `j ≠ k` (including the three frames packed in
the same byte) is unchanged. -/
theorem claim10_set_state_get_state (p : ContFramePool) (k j : Nat) (s : FrameState)
    (hk : k < p.nframes) (hj : j < p.nframes) (hjk : j ≠ k) :
    get_state (set_state p.bitmap k s) k = s ∧
    get_state (set_state p.bitmap k s) j = get_state p.bitmap j :=
  ⟨get_set_same p.bitmap k s, get_set_other p.bitmap k s j hjk⟩

/-- Witness for C10 with `k = 1` and `j = 2` in the same bitmap byte. -/
theorem claim10_set_state_get_state_witness :
    get_state (set_state (ContFramePool.mk 0 8 1 (fun _ => 0)).bitmap 1 FrameState.HoS) 1 =
      FrameState.HoS ∧
    get_state (set_state (ContFramePool.mk 0 8 1 (fun _ => 0)).bitmap 1 FrameState.HoS) 2 =
      get_state (ContFramePool.mk 0 8 1 (fun _ => 0)).bitmap 2 :=
  claim10_set_state_get_state (ContFramePool.mk 0 8 1 (fun _ => 0)) 1 2 FrameState.HoS
    (by decide) (by decide) (by decide)

/-- C9.  `mark_inaccessible(b, n)` (with `b + n ≤ nframes`, `n ≥ 1`)
followed by the static `release_frames(b + base_frame_no)` routes to this
pool and leaves all `n` frames `b .. b + n - 1` in state `Free`. -/
theorem claim9_mark_then_release (p : ContFramePool) (b n : Nat) (hn : 1 ≤ n)
    (hbn : b + n ≤ p.nframes) :
    release_frames [mark_inaccessible p b n] (b + p.base_frame_no) =
      [release_in_pool (mark_inaccessible p b n) b] ∧
    ∀ i, i < n → get_state (release_in_pool (mark_inaccessible p b n) b).bitmap (b + i) =
      FrameState.Free := by
  have hb1 : (mark_inaccessible p b n).base_frame_no = p.base_frame_no := rfl
  have hb2 : (mark_inaccessible p b n).nframes = p.nframes := rfl
  constructor
  · simp only [release_frames, hb1, hb2]
    rw [if_pos (by omega : p.base_frame_no ≤ b + p.base_frame_no),
      if_pos (by omega : b + p.base_frame_no ≤ p.base_frame_no + p.nframes - 1),
      show b + p.base_frame_no - p.base_frame_no = b from by omega]
  · intro i hi
    have hH : get_state (mark_inaccessible p b n).bitmap b = FrameState.HoS :=
      mark_get_head p b n
    have hbm : (release_in_pool (mark_inaccessible p b n) b).bitmap =
        freeRun p.nframes (set_state (mark_inaccessible p b n).bitmap b FrameState.Free)
          (b + 1) (p.nframes - (b + 1)) := by
      simp [release_in_pool, hH, hb2]
    have hFR := fun j => freeRun_get p.nframes (p.nframes - (b + 1))
      (set_state (mark_inaccessible p b n).bitmap b FrameState.Free) (b + 1) (by omega) j
    rcases Nat.eq_zero_or_pos i with hi0 | hipos
    · rw [hi0, Nat.add_zero, hbm, (hFR b).2 (by omega)]
      exact get_set_same (mark_inaccessible p b n).bitmap b FrameState.Free
    · rw [hbm]
      apply (hFR (b + i)).1
      refine ⟨by omega, by omega, fun t ht1 ht2 => ?_⟩
      rw [get_set_other (mark_inaccessible p b n).bitmap b FrameState.Free t (by omega)]
      exact mark_get_used p b n t (by omega) (by omega)

/-- Witness for C9: mark 2 frames at relative 1 of a 5-frame pool, then
release them through the static entry point. -/
theorem claim9_mark_then_release_witness :
    get_state (release_in_pool
        (mark_inaccessible (ContFramePool.mk 100 5 1 (fun _ => 0)) 1 2) 1).bitmap (1 + 1) =
      FrameState.Free :=
  (claim9_mark_then_release (ContFramePool.mk 100 5 1 (fun _ => 0)) 1 2 (by decide)
    (by decide)).2 1 (by decide)

/-- C3, counterexample to the claim as stated: on a self-backed pool
(`info_frame_no == 0`, base 5, 2 frames) the single reachable step
`release_frames(5)` — a release of the pool's own base frame — frees
frame 0, so frame 0 is not `HeadOfSequence` in every reachable state. -/
theorem claim3_counterexample :
    get_state (applyOp (constructPool (fun _ => 0) 5 2 0) (PoolOp.release 5)).bitmap 0 ≠
      FrameState.HoS := by
  decide

/-- C3, amended: for a pool constructed with `info_frame_no == 0`, frame 0
stays `HeadOfSequence` under every sequence of `get_frames` (`n ≥ 1`),
`mark_inaccessible`, and `release_frames` calls in which no release
targets the pool's own base frame. -/
theorem claim3_self_reservation (junk : Nat → Nat) (base n : Nat) (ops : List PoolOp)
    (hn : 1 ≤ n) (hops : ∀ op ∈ ops, OpOK base op) :
    get_state ((ops.foldl applyOp (constructPool junk base n 0))).bitmap 0 =
      FrameState.HoS :=
  foldl_applyOp_HoS base ops (constructPool junk base n 0) rfl
    (constructPool_state_zero junk base n) hops

/-- Witness for C3 (amended) on a 3-frame self-backed pool with an
allocation, a forced mark, and a release of an unowned frame. -/
theorem claim3_self_reservation_witness :
    get_state (([PoolOp.get 1, PoolOp.mark 1 1, PoolOp.release 7].foldl applyOp
        (constructPool (fun _ => 0) 5 3 0))).bitmap 0 = FrameState.HoS :=
  claim3_self_reservation (fun _ => 0) 5 3 [PoolOp.get 1, PoolOp.mark 1 1, PoolOp.release 7]
    (by decide) (by decide)

/-- C4, counterexample to the claim as stated: on a bitmap byte holding
the reserved pattern `0b11`, `get_state` does not fail; it silently
returns the legal state `Free` (the fall-through `return FrameState::Free`
after the `switch`). -/
theorem claim4_counterexample :
    get_state (fun _ => 3) 0 = FrameState.Free := by
  decide

/-- C4, amended: whenever the two-bit field of frame `k` holds the
reserved pattern `0b11`, the reader `get_state` silently coerces it to
`Free` rather than treating it as a fatal internal-consistency failure. -/
theorem claim4_reserved_pattern_coerced (bm : Nat → Nat) (k : Nat)
    (h : (bm (k / 4) >>> (2 * (k % 4))) &&& 3 = 3) :
    get_state bm k = FrameState.Free := by
  unfold get_state
  rw [h]
  rfl

/-- Witness for C4 (amended) at an all-ones byte, frame 2. -/
theorem claim4_reserved_pattern_coerced_witness :
    get_state (fun _ => 255) 2 = FrameState.Free :=
  claim4_reserved_pattern_coerced (fun _ => 255) 2 (by decide)

/-- C5, counterexample to the claim as stated: `needed_info_frames(0)`
returns `ceil(0 / 32768) = 0`, not 1, although the claim asserts the value
1 for every `0 ≤ n ≤ 16384`. -/
theorem claim5_counterexample : needed_info_frames 0 ≠ 1 := by
  decide

/-- C5, amended: for every `n` small enough that the 32-bit `unsigned int`
arithmetic inside `needed_info_frames` cannot wrap (`n ≤ 2^31 - 16385`),
`needed_info_frames n` equals `ceil(n · 2 / (frame_size · 8))`, is
monotone nondecreasing there, and equals 1 for `1 ≤ n ≤ 16384`. -/
theorem claim5_needed_info_frames (n : Nat) (hb : n ≤ 2147467263) :
    needed_info_frames n = (n * 2 + (FRAME_SIZE * 8 - 1)) / (FRAME_SIZE * 8) ∧
    (∀ m, m ≤ n → needed_info_frames m ≤ needed_info_frames n) ∧
    (1 ≤ n → n ≤ 16384 → needed_info_frames n = 1) := by
  have key : ∀ x, x ≤ 2147467263 → needed_info_frames x = (x * 2 + 32767) / 32768 := by
    intro x hx
    show ((x * 2 % 4294967296 + FRAME_SIZE * 8) % 4294967296 + 4294967295) %
      4294967296 / (FRAME_SIZE * 8) = _
    have hFS : FRAME_SIZE * 8 = 32768 := by norm_num [FRAME_SIZE]
    rw [hFS]
    omega
  refine ⟨?_, ?_, ?_⟩
  · rw [key n hb]
    norm_num [FRAME_SIZE]
  · intro m hm
    rw [key n hb, key m (by omega)]
    omega
  · intro h1 h2
    rw [key n hb]
    omega

/-- Witness for C5 (amended) at `n = 9000`. -/
theorem claim5_needed_info_frames_witness : needed_info_frames 9000 = 1 :=
  (claim5_needed_info_frames 9000 (by decide)).2.2 (by decide) (by decide)

/-- C8.  On a freshly constructed pool of `n ≥ 2` frames: with an external
info frame (`info ≠ 0`), `get_frames(n)` succeeds and returns
`base_frame_no`; on a self-backed pool (`info = 0`), `get_frames(n)`
returns 0 because frame 0 is reserved, while `get_frames(n - 1)` succeeds
and returns `base_frame_no + 1`. -/
theorem claim8_fresh_pool_boundaries (junk : Nat → Nat) (base n : Nat) (hn : 2 ≤ n) :
    (∀ info, info ≠ 0 → (get_frames (constructPool junk base n info) n).2 = base) ∧
    (get_frames (constructPool junk base n 0) n).2 = 0 ∧
    (get_frames (constructPool junk base n 0) (n - 1)).2 = base + 1 := by
  refine ⟨?_, ?_, ?_⟩
  · intro info hinfo
    have h := gf_loop_found (constructPool junk base n info) n (by omega)
      ((constructPool junk base n info).nframes + 1) 0 0 (by omega) (by omega)
      (by show 0 + n ≤ n; omega)
      (fun i hi => by
        rw [Nat.zero_add]
        exact constructPool_state_free junk base n info i hi (fun hc => hinfo hc.1))
      (fun t ht1 ht2 => by omega)
    rw [show get_frames (constructPool junk base n info) n =
      get_frames_loop (constructPool junk base n info) n
        ((constructPool junk base n info).nframes + 1) 0 from rfl, h]
    show 0 + base = base
    omega
  · have h := gf_loop_none (constructPool junk base n 0) n (by omega)
      ((constructPool junk base n 0).nframes + 1) 0
      (fun s hs1 hs2 hall => by
        have hs0 : s = 0 := by
          have : s + n ≤ n := hs2
          omega
        have h0 := hall 0 (by omega)
        rw [hs0, Nat.zero_add] at h0
        rw [constructPool_state_zero junk base n] at h0
        exact absurd h0 (by decide))
    rw [show get_frames (constructPool junk base n 0) n =
      get_frames_loop (constructPool junk base n 0) n
        ((constructPool junk base n 0).nframes + 1) 0 from rfl, h]
  · have h := gf_loop_found (constructPool junk base n 0) (n - 1) (by omega)
      ((constructPool junk base n 0).nframes + 1) 0 1 (by omega) (by omega)
      (by show 1 + (n - 1) ≤ n; omega)
      (fun i hi => by
        exact constructPool_state_free junk base n 0 (1 + i) (by omega) (by omega))
      (fun t ht1 ht2 hall => by
        have ht0 : t = 0 := by omega
        have h0 := hall 0 (by omega)
        rw [ht0] at h0
        simp only [Nat.add_zero] at h0
        rw [constructPool_state_zero junk base n] at h0
        exact absurd h0 (by decide))
    rw [show get_frames (constructPool junk base n 0) (n - 1) =
      get_frames_loop (constructPool junk base n 0) (n - 1)
        ((constructPool junk base n 0).nframes + 1) 0 from rfl, h]
    show 1 + base = base + 1
    omega

/-- Witness for C8 on 3-frame pools based at 512. -/
theorem claim8_fresh_pool_boundaries_witness :
    (get_frames (constructPool (fun _ => 0) 512 3 1) 3).2 = 512 ∧
    (get_frames (constructPool (fun _ => 0) 512 3 0) 3).2 = 0 ∧
    (get_frames (constructPool (fun _ => 0) 512 3 0) 2).2 = 512 + 1 :=
  ⟨(claim8_fresh_pool_boundaries (fun _ => 0) 512 3 (by decide)).1 1 (by decide),
   (claim8_fresh_pool_boundaries (fun _ => 0) 512 3 (by decide)).2.1,
   (claim8_fresh_pool_boundaries (fun _ => 0) 512 3 (by decide)).2.2⟩

/-- C6, counterexample to the claim as stated: the constructor never
checks ranges, so constructing pools `[512, 1024)` and `[600, 1112)` from
the empty registry produces a registry whose frame ranges overlap; the
conjunction "sorted and pairwise disjoint" fails. -/
theorem claim6_counterexample :
    ¬ (sortedByBase (buildRegistry
          [CtorCall.mk (fun _ => 0) 512 512 1, CtorCall.mk (fun _ => 0) 600 512 2]) ∧
       disjointRegistry (buildRegistry
          [CtorCall.mk (fun _ => 0) 512 512 1, CtorCall.mk (fun _ => 0) 600 512 2])) := by
  rintro ⟨-, hd⟩
  have hreg : buildRegistry
      [CtorCall.mk (fun _ => 0) 512 512 1, CtorCall.mk (fun _ => 0) 600 512 2] =
      [constructPool (fun _ => 0) 512 512 1, constructPool (fun _ => 0) 600 512 2] := rfl
  rw [hreg] at hd
  rcases List.pairwise_cons.mp hd with ⟨h1, -⟩
  have h2 := h1 (constructPool (fun _ => 0) 600 512 2) (by simp)
  rcases h2 with h | h
  · exact absurd h (by decide)
  · exact absurd h (by decide)

/-- C6, amended: after any sequence of constructor calls the registry is
sorted ascending by `base_frame_no` (the disjointness half of the claim is
not enforced by the constructor and can fail, see the counterexample). -/
theorem claim6_registry_sorted (calls : List CtorCall) :
    sortedByBase (buildRegistry calls) :=
  foldl_construct_sorted calls [] List.Pairwise.nil

/-- C7.  For a registry with the constructor-maintained shape (pools of
`nframes ≥ 1`, sorted by base, pairwise disjoint ranges): the static
`release_frames f` rewrites exactly the one pool whose range contains `f`,
leaving every other pool untouched, and is the identity when no pool's
range contains `f`. -/
theorem claim7_static_release_routing (ps : List ContFramePool) (f : Nat)
    (hpos : ∀ p ∈ ps, 1 ≤ p.nframes)
    (hsorted : sortedByBase ps)
    (hdisj : disjointRegistry ps) :
    (∀ l₁ p l₂, ps = l₁ ++ p :: l₂ →
        p.base_frame_no ≤ f → f ≤ p.base_frame_no + p.nframes - 1 →
        release_frames ps f = l₁ ++ release_in_pool p (f - p.base_frame_no) :: l₂) ∧
    ((∀ p ∈ ps, ¬(p.base_frame_no ≤ f ∧ f ≤ p.base_frame_no + p.nframes - 1)) →
        release_frames ps f = ps) := by
  constructor
  · intro l₁ p l₂ heq hbf hfb
    subst heq
    apply release_frames_at f l₁ p l₂ _ hbf hfb
    intro q hq
    have hqmem : q ∈ l₁ ++ p :: l₂ := List.mem_append_left _ hq
    have hpmem : p ∈ l₁ ++ p :: l₂ := List.mem_append_right _ (List.mem_cons_self p l₂)
    have hqpos : 1 ≤ q.nframes := hpos q hqmem
    have hppos : 1 ≤ p.nframes := hpos p hpmem
    have hqle : q.base_frame_no ≤ p.base_frame_no := by
      rcases List.pairwise_append.mp hsorted with ⟨-, -, hcross⟩
      exact hcross q hq p (List.mem_cons_self p l₂)
    have hqd : rangesDisjoint q p := by
      rcases List.pairwise_append.mp hdisj with ⟨-, -, hcross⟩
      exact hcross q hq p (List.mem_cons_self p l₂)
    have hfit : q.base_frame_no + q.nframes ≤ p.base_frame_no := by
      rcases hqd with h | h
      · exact h
      · omega
    exact ⟨by omega, by omega⟩
  · exact release_frames_skip f ps

/-- Witness for C7: two disjoint pools (bases 512 and 1024); releasing
absolute frame 1024 routes to the second pool only. -/
theorem claim7_static_release_routing_witness :
    release_frames [ContFramePool.mk 512 512 1 (fun _ => 0),
        ContFramePool.mk 1024 7168 2 (fun _ => 0)] 1024 =
      [ContFramePool.mk 512 512 1 (fun _ => 0),
        release_in_pool (ContFramePool.mk 1024 7168 2 (fun _ => 0)) 0] :=
  (claim7_static_release_routing
      [ContFramePool.mk 512 512 1 (fun _ => 0), ContFramePool.mk 1024 7168 2 (fun _ => 0)]
      1024 (by decide) (by decide) (by decide)).1
    [ContFramePool.mk 512 512 1 (fun _ => 0)] (ContFramePool.mk 1024 7168 2 (fun _ => 0)) []
    rfl (by decide) (by decide)
